import Mathlib

/-!
Verification of the banned-identifier scanner (src/main.rs) against its
specification. The buffer of a source file is modelled as a list of bytes,
a byte as a natural number; the tree-sitter layer is modelled by its
observable output (per file: an open or mmap failure, a parse failure, or a
list of identifier occurrences with their byte spans); printing is modelled
as a list of emitted events. A Rust runtime abort (an out-of-bounds slice or
a failed unwrap) is modelled by an `Option` result being `none`, or by a
dedicated constructor of the result type.
-/

namespace Taboo

/-- A byte of a source buffer; the program reads files as raw byte slices. -/
abbrev Byte := Nat

/-- Tests whether a byte is a line terminator: the program compares each byte
with the code of the linefeed character (10) and of the carriage-return
character (13). -/
def isLineTermByte (b : Byte) : Bool := b == 10 || b == 13

/-- Model of `Iterator::rposition` on a byte slice: the index of the last
element satisfying the predicate, if any. -/
def rposition (p : Byte → Bool) : List Byte → Option Nat
  | [] => none
  | b :: bs =>
    match rposition p bs with
    | some i => some (i + 1)
    | none => if p b then some 0 else none

/-- Model of `Iterator::position` on a byte slice: the index of the first
element satisfying the predicate, if any. -/
def positionIdx (p : Byte → Bool) : List Byte → Option Nat
  | [] => none
  | b :: bs => if p b then some 0 else (positionIdx p bs).map (fun i => i + 1)

/-- Model of the Rust slice expression `&buf[a..b]`: `none` models the failed
bounds check (a runtime abort of the process) when `a > b` or when `b` exceeds
the length of the buffer. -/
def rustSlice (buf : List Byte) (a b : Nat) : Option (List Byte) :=
  if a ≤ b ∧ b ≤ buf.length then some ((buf.take b).drop a) else none

/-- Translation of the line-start computation inside
`check_paths_for_banned_words`:
`slice_before.iter().rposition(is_term).map(|b| b + 1).unwrap_or(0)`, where
`slice_before` is `&mmap_slice[0..start_byte]`. -/
def line_first_char (buf : List Byte) (start_byte : Nat) : Nat :=
  match rposition isLineTermByte (buf.take start_byte) with
  | some b => b + 1
  | none => 0

/-- Translation of the line-end computation inside
`check_paths_for_banned_words`:
`end_byte + slice_after.iter().position(is_term).unwrap_or(mmap_slice.len())`,
where `slice_after` is `&mmap_slice[end_byte..]`. Note that the fallback value
added to `end_byte` is the length of the whole buffer, not the length of
`slice_after`. -/
def line_last_char (buf : List Byte) (end_byte : Nat) : Nat :=
  end_byte +
    (match positionIdx isLineTermByte (buf.drop end_byte) with
     | some p => p
     | none => buf.length)

/-- The line excerpt around a match: the bytes of the enclosing line before
the match, the matched bytes, and the bytes of the enclosing line after the
match. -/
structure LineExcerpt where
  pre : List Byte
  matched : List Byte
  post : List Byte
deriving DecidableEq

/-- Translation of the line-context extraction inside
`check_paths_for_banned_words` (main.rs lines 95 to 110): compute
`line_first_char` and `line_last_char`, then take the slices
`&mmap_slice[line_first_char..start_byte]` and
`&mmap_slice[end_byte..line_last_char]`. The result is `none` when one of the
slice operations fails its bounds check, which in the program aborts the whole
process at runtime; the outer guard models the bounds checks of the two
whole-buffer slices `&mmap_slice[0..start_byte]` and `&mmap_slice[end_byte..]`
taken first. The matched text is the byte span of the occurrence itself. -/
def extractLineContext (buf : List Byte) (start_byte end_byte : Nat) :
    Option LineExcerpt :=
  if start_byte ≤ buf.length ∧ end_byte ≤ buf.length then
    match rustSlice buf (line_first_char buf start_byte) start_byte,
          rustSlice buf end_byte (line_last_char buf end_byte) with
    | some pre, some post =>
      some ⟨pre, (buf.take end_byte).drop start_byte, post⟩
    | _, _ => none
  else none

/-- Written from the words of the specification (not from the code): the end
of the physical line containing a span is the position of the nearest line
terminator at or after `end_byte`, or the length of the buffer when no such
byte exists. -/
def specLineEnd (buf : List Byte) (end_byte : Nat) : Nat :=
  match positionIdx isLineTermByte (buf.drop end_byte) with
  | some p => end_byte + p
  | none => buf.length

/-- Written from the words of the specification: the physical line containing
a span, the bytes between the preceding line terminator (exclusive) and the
following line terminator (exclusive). -/
def physicalLine (buf : List Byte) (start_byte end_byte : Nat) : List Byte :=
  (buf.take (specLineEnd buf end_byte)).drop (line_first_char buf start_byte)

/-- An identifier occurrence as yielded by the tree-sitter query: its byte
span in the buffer and its 0-based row and column, mirroring the data the
program reads off `capture.node`. -/
structure Occurrence where
  start_byte : Nat
  end_byte : Nat
  row : Nat
  col : Nat
deriving DecidableEq

/-- Model of `capture.node.utf8_text(mmap_slice)`: the bytes of the span of
the node. The UTF-8 decoding of the matched token is modelled as the identity
on its byte slice, since membership in the banned-word set compares exactly
these bytes. -/
def occText (buf : List Byte) (o : Occurrence) : List Byte :=
  (buf.take o.end_byte).drop o.start_byte

/-- An observable output event of the scanner: the one-time banner printed on
the first match, or one diagnostic line per match carrying the path, the
1-based row, the 0-based column, and the three parts of the line excerpt. -/
inductive Event where
  | header : Event
  | diag (path : String) (row col : Nat) (pre matched post : List Byte) : Event
deriving DecidableEq

/-- The state threaded through one scanning run: the `seen_banned_word` flag
and the events emitted so far. -/
structure ScanState where
  seen : Bool
  out : List Event
deriving DecidableEq

/-- Result of processing one occurrence, or a list of occurrences: the updated
state, or the state already emitted when the process aborted on an
out-of-bounds slice. -/
inductive OccStep where
  | ok (st : ScanState) : OccStep
  | aborted (st : ScanState) : OccStep
deriving DecidableEq

/-- Translation of the banner block inside `check_paths_for_banned_words`: if
`seen_banned_word` is not yet set, print the banner and set it. -/
def bannerState (st : ScanState) : ScanState :=
  if st.seen then st else ⟨true, st.out ++ [Event.header]⟩

/-- Translation of the per-occurrence body of the loop of
`check_paths_for_banned_words`: test the text of the occurrence for membership
in the banned-word set; on a match, print the banner when it has not been
printed yet, extract the line context and emit one diagnostic line (the
program prints `start_position().row + 1` and the raw column). `aborted`
models the runtime abort of the process when the line-context slice fails its
bounds check. -/
def processOcc (set : Finset (List Byte)) (path : String) (buf : List Byte)
    (st : ScanState) (o : Occurrence) : OccStep :=
  if occText buf o ∈ set then
    match extractLineContext buf o.start_byte o.end_byte with
    | some ex =>
      OccStep.ok ⟨(bannerState st).seen,
        (bannerState st).out ++
          [Event.diag path (o.row + 1) o.col ex.pre (occText buf o) ex.post]⟩
    | none => OccStep.aborted (bannerState st)
  else OccStep.ok st

/-- Processes the occurrences of one file in order, stopping at an abort. -/
def processOccs (set : Finset (List Byte)) (path : String) (buf : List Byte) :
    ScanState → List Occurrence → OccStep
  | st, [] => OccStep.ok st
  | st, o :: os =>
    match processOcc set path buf st o with
    | OccStep.ok st1 => processOccs set path buf st1 os
    | OccStep.aborted st1 => OccStep.aborted st1

/-- One input file as the scanner observes it: opening or memory-mapping it
fails (`ioError`), it opens but the parser cannot build a tree for its bytes
(`parseFail`), or it opens and parses into a list of identifier occurrences
over its byte buffer (`parsed`). -/
inductive FileInput where
  | ioError (path : String) : FileInput
  | parseFail (path : String) (buf : List Byte) : FileInput
  | parsed (path : String) (buf : List Byte) (occs : List Occurrence) : FileInput
deriving DecidableEq

/-- Result of processing a list of files from a given state: finished
normally, stopped by a propagated I/O error, or stopped by a runtime abort. -/
inductive StepResult where
  | ok (st : ScanState) : StepResult
  | ioErr (st : ScanState) : StepResult
  | aborted (st : ScanState) : StepResult
deriving DecidableEq

/-- Translation of the per-file body of the loop of
`check_paths_for_banned_words`: an I/O error opening or mapping the file
propagates immediately through the question-mark operator; a file whose bytes
the parser cannot build a tree for is skipped silently; otherwise every
occurrence yielded for the file is processed in order. -/
def processFile (set : Finset (List Byte)) (st : ScanState) :
    FileInput → StepResult
  | FileInput.ioError _ => StepResult.ioErr st
  | FileInput.parseFail _ _ => StepResult.ok st
  | FileInput.parsed path buf occs =>
    match processOccs set path buf st occs with
    | OccStep.ok st1 => StepResult.ok st1
    | OccStep.aborted st1 => StepResult.aborted st1

/-- The file loop of `check_paths_for_banned_words`, threading the state. -/
def runFiles (set : Finset (List Byte)) :
    ScanState → List FileInput → StepResult
  | st, [] => StepResult.ok st
  | st, f :: fs =>
    match processFile set st f with
    | StepResult.ok st1 => runFiles set st1 fs
    | StepResult.ioErr st1 => StepResult.ioErr st1
    | StepResult.aborted st1 => StepResult.aborted st1

/-- The observable outcome of `check_paths_for_banned_words`: the returned
verdict together with the emitted events, a propagated I/O error, or a runtime
abort. -/
inductive ScanResult where
  | ok (verdict : Bool) (out : List Event) : ScanResult
  | ioError (out : List Event) : ScanResult
  | aborted (out : List Event) : ScanResult
deriving DecidableEq

/-- Translation of `check_paths_for_banned_words`: start with
`seen_banned_word = false` and nothing emitted, process the files in order,
and return `seen_banned_word` as the verdict. -/
def check_paths_for_banned_words (set : Finset (List Byte))
    (files : List FileInput) : ScanResult :=
  match runFiles set ⟨false, []⟩ files with
  | StepResult.ok st => ScanResult.ok st.seen st.out
  | StepResult.ioErr st => ScanResult.ioError st.out
  | StepResult.aborted st => ScanResult.aborted st.out

/-- Whether a file input holds at least one occurrence whose text is a member
of the banned-word set (byte-for-byte equality). -/
def fileHasMatch (set : Finset (List Byte)) : FileInput → Bool
  | FileInput.parsed _ buf occs =>
    occs.any (fun o => decide (occText buf o ∈ set))
  | _ => false

/-- Tests whether an event is the banner. -/
def isHeaderEvent : Event → Bool
  | Event.header => true
  | _ => false

/-- The banner discipline of one run: nothing has been emitted while
`seen_banned_word` is unset, and once it is set the banner has been emitted
exactly once, as the first event. -/
def bannerOnce (seen : Bool) (out : List Event) : Prop :=
  (seen = false → out = []) ∧
  (seen = true → out.countP isHeaderEvent = 1 ∧ out.head? = some Event.header)

/-- How the process ends, as observable from outside: a success exit status, a
failure exit status after a normal return of the scan, or a runtime abort,
which writes a message to the error stream and exits with a failure status (in
`main`, the `Err` of `check_paths_for_banned_words` is passed to `unwrap`,
which aborts; an abort inside the scan ends the process the same way). -/
inductive ProcessExit where
  | success : ProcessExit
  | failure : ProcessExit
  | abortWithMessage : ProcessExit
deriving DecidableEq

/-- Translation of how `main` maps the outcome of
`check_paths_for_banned_words` to the process exit: a returned verdict of
`true` gives the failure exit code, `false` the success exit code, and an
`Err` hits `unwrap` and aborts. -/
def mainExit : ScanResult → ProcessExit
  | ScanResult.ok v _ => if v then ProcessExit.failure else ProcessExit.success
  | ScanResult.ioError _ => ProcessExit.abortWithMessage
  | ScanResult.aborted _ => ProcessExit.abortWithMessage

/-- Whether a process exit carries a failure status (a runtime abort also
exits with a nonzero status). -/
def exitIsFailure : ProcessExit → Bool
  | ProcessExit.success => false
  | _ => true

/-- Model of the white-space test used by `str::trim`
(`char::is_whitespace`): the code points with the Unicode White_Space
property. -/
def isRustWhitespace (c : Char) : Bool :=
  (0x09 ≤ c.toNat && c.toNat ≤ 0x0d) || c.toNat == 0x20 || c.toNat == 0x85 ||
  c.toNat == 0xa0 || c.toNat == 0x1680 ||
  (0x2000 ≤ c.toNat && c.toNat ≤ 0x200a) || c.toNat == 0x2028 ||
  c.toNat == 0x2029 || c.toNat == 0x202f || c.toNat == 0x205f ||
  c.toNat == 0x3000

/-- Model of `str::trim`: remove the leading and the trailing white space of a
string. -/
def rustTrim (s : String) : String :=
  String.mk
    (((s.data.dropWhile isRustWhitespace).reverse.dropWhile
        isRustWhitespace).reverse)

/-- Splits a character list at each linefeed; the result always has one more
part than there are linefeeds. -/
def splitNL : List Char → List (List Char)
  | [] => [[]]
  | c :: cs =>
    if c = '\n' then [] :: splitNL cs
    else
      match splitNL cs with
      | r :: rs => (c :: r) :: rs
      | [] => [[c]]

/-- Strips one trailing carriage return from a character list, when present. -/
def stripCRChars (l : List Char) : List Char :=
  match l.getLast? with
  | some c => if c = '\r' then l.dropLast else l
  | none => l

/-- Model of `BufRead::lines` on the full text of a resource: split at each
linefeed, drop the trailing empty fragment produced when the text ends with a
linefeed (the iterator yields no line there), and strip one trailing
carriage return from each line. -/
def rustLines (text : String) : List String :=
  let parts := splitNL text.data
  let parts := if parts.getLast? == some [] then parts.dropLast else parts
  parts.map (fun l => String.mk (stripCRChars l))

/-- Translation of `banned_words_from` on a word-list text all of whose lines
read and decode successfully: trim every line, discard the lines that are
empty after trimming, and collect the rest into a set. -/
def banned_words_from (text : String) : Finset String :=
  (((rustLines text).map rustTrim).filter (fun l => l != "")).toFinset

/-- Model of the per-line `l.unwrap()` in `banned_words_from`: an element of
the input is `none` when reading or UTF-8-decoding that line fails, on which
the unwrap aborts the process, modelled by `none` as the overall result. -/
def unwrapLines : List (Option String) → Option (List String)
  | [] => some []
  | none :: _ => none
  | some s :: rest => (unwrapLines rest).map (fun ss => s :: ss)

/-- Translation of `banned_words_from` at the level of the `lines()` iterator:
each element of the input is the result of reading and UTF-8-decoding one
line, `none` on failure; the result is `none` exactly when the function aborts
the process on a failed unwrap. -/
def banned_words_from_lines (ls : List (Option String)) :
    Option (Finset String) :=
  (unwrapLines ls).map
    (fun ss => ((ss.map rustTrim).filter (fun l => l != "")).toFinset)

/-- Translation of the test-path selection in `main`: with no file arguments,
the paths are the entries of the directory named "src" in the current working
directory, each unwrapped; with file arguments, the paths are exactly those
arguments. The file system is modelled as a map from a directory name to its
immediate entries, `none` when the directory cannot be read; an entry is
`none` when reading it fails. A `none` result models the runtime abort of
`fs::read_dir("src").unwrap()` or of `di.unwrap()`. -/
def test_paths (argFiles : List String)
    (readDir : String → Option (List (Option String))) :
    Option (List String) :=
  if argFiles.isEmpty then
    match readDir "src" with
    | none => none
    | some entries => unwrapLines entries
  else some argFiles

/-! ### Helper lemmas -/

theorem bannerState_seen (st : ScanState) : (bannerState st).seen = true := by
  unfold bannerState
  cases h : st.seen <;> simp [h]

theorem processOcc_ok_seen (set : Finset (List Byte)) (path : String)
    (buf : List Byte) (st : ScanState) (o : Occurrence) (st1 : ScanState)
    (h : processOcc set path buf st o = OccStep.ok st1) :
    st1.seen = (st.seen || decide (occText buf o ∈ set)) := by
  unfold processOcc at h
  by_cases hm : occText buf o ∈ set
  · rw [if_pos hm] at h
    cases hext : extractLineContext buf o.start_byte o.end_byte with
    | none => rw [hext] at h; simp at h
    | some ex =>
      rw [hext] at h
      cases h
      simp [hm, bannerState_seen]
  · rw [if_neg hm] at h
    cases h
    simp [hm]

theorem processOccs_ok_seen (set : Finset (List Byte)) (path : String)
    (buf : List Byte) (os : List Occurrence) :
    ∀ (st st1 : ScanState), processOccs set path buf st os = OccStep.ok st1 →
      st1.seen = (st.seen || os.any (fun o => decide (occText buf o ∈ set))) := by
  induction os with
  | nil =>
    intro st st1 h
    cases h
    simp
  | cons o os ih =>
    intro st st1 h
    simp only [processOccs] at h
    cases hp : processOcc set path buf st o with
    | ok stm =>
      rw [hp] at h
      rw [ih stm st1 h, processOcc_ok_seen set path buf st o stm hp]
      simp [Bool.or_assoc]
    | aborted stm =>
      rw [hp] at h
      simp at h

theorem runFiles_ok_seen (set : Finset (List Byte)) (fs : List FileInput) :
    ∀ (st st1 : ScanState), runFiles set st fs = StepResult.ok st1 →
      st1.seen = (st.seen || fs.any (fileHasMatch set)) := by
  induction fs with
  | nil =>
    intro st st1 h
    cases h
    simp
  | cons f fs ih =>
    intro st st1 h
    simp only [runFiles] at h
    cases f with
    | ioError p => simp [processFile] at h
    | parseFail p buf =>
      simp only [processFile] at h
      rw [ih st st1 h]
      simp [fileHasMatch]
    | parsed path buf occs =>
      simp only [processFile] at h
      cases hp : processOccs set path buf st occs with
      | ok stm =>
        rw [hp] at h
        rw [ih stm st1 h, processOccs_ok_seen set path buf occs st stm hp]
        simp [fileHasMatch, Bool.or_assoc]
      | aborted stm =>
        rw [hp] at h
        simp at h

theorem fileHasMatch_iff (set : Finset (List Byte)) (f : FileInput) :
    fileHasMatch set f = true ↔
      ∃ path buf occs, f = FileInput.parsed path buf occs ∧
        ∃ o ∈ occs, occText buf o ∈ set := by
  cases f with
  | ioError p => simp [fileHasMatch]
  | parseFail p b => simp [fileHasMatch]
  | parsed p b os =>
    simp only [fileHasMatch, List.any_eq_true, decide_eq_true_eq,
      FileInput.parsed.injEq]
    constructor
    · rintro ⟨o, ho, hmem⟩
      exact ⟨p, b, os, ⟨rfl, rfl, rfl⟩, o, ho, hmem⟩
    · rintro ⟨path, buf, occs, ⟨rfl, rfl, rfl⟩, o, ho, hmem⟩
      exact ⟨o, ho, hmem⟩

theorem runFiles_skip_parseFail (set : Finset (List Byte)) (p : String)
    (buf : List Byte) (fs2 : List FileInput) :
    ∀ (fs1 : List FileInput) (st : ScanState),
      runFiles set st (fs1 ++ FileInput.parseFail p buf :: fs2) =
        runFiles set st (fs1 ++ fs2) := by
  intro fs1
  induction fs1 with
  | nil => intro st; rfl
  | cons f fs ih =>
    intro st
    simp only [List.cons_append, runFiles]
    cases processFile set st f with
    | ok st1 => exact ih st1
    | ioErr st1 => rfl
    | aborted st1 => rfl

theorem runFiles_ioError_stops (set : Finset (List Byte)) (p : String)
    (fs2 : List FileInput) :
    ∀ (fs1 : List FileInput) (st st1 : ScanState),
      runFiles set st fs1 = StepResult.ok st1 →
      runFiles set st (fs1 ++ FileInput.ioError p :: fs2) =
        StepResult.ioErr st1 := by
  intro fs1
  induction fs1 with
  | nil =>
    intro st st1 h
    cases h
    rfl
  | cons f fs ih =>
    intro st st1 h
    simp only [runFiles] at h ⊢
    cases hp : processFile set st f with
    | ok stm =>
      rw [hp] at h
      exact ih stm st1 h
    | ioErr stm =>
      rw [hp] at h
      simp at h
    | aborted stm =>
      rw [hp] at h
      simp at h

theorem isHeaderEvent_header : isHeaderEvent Event.header = true := rfl

theorem bannerOnce_emit (st : ScanState) (e : Event)
    (he : isHeaderEvent e = false) (hb : bannerOnce st.seen st.out) :
    bannerOnce true ((bannerState st).out ++ [e]) := by
  cases hseen : st.seen with
  | false =>
    have hout : st.out = [] := hb.1 hseen
    have hbs : (bannerState st).out = [Event.header] := by
      unfold bannerState
      rw [hseen, hout]
      simp
    rw [hbs]
    refine ⟨fun hc => absurd hc (by decide), fun _ => ⟨?_, rfl⟩⟩
    simp [List.countP_cons, List.countP_nil, he, isHeaderEvent_header]
  | true =>
    obtain ⟨hc, hh⟩ := hb.2 hseen
    have hbs : (bannerState st).out = st.out := by
      unfold bannerState
      rw [hseen]
      simp
    rw [hbs]
    refine ⟨fun hc => absurd hc (by decide), fun _ => ⟨?_, ?_⟩⟩
    · rw [List.countP_append, hc]
      simp [List.countP_cons, List.countP_nil, he]
    · obtain ⟨hd, tl, hout⟩ : ∃ hd tl, st.out = hd :: tl := by
        cases hst : st.out with
        | nil => rw [hst] at hh; simp at hh
        | cons a b => exact ⟨a, b, rfl⟩
      rw [hout] at hh ⊢
      simp at hh
      simp [hh]

theorem processOcc_bannerOnce (set : Finset (List Byte)) (path : String)
    (buf : List Byte) (st : ScanState) (o : Occurrence) (st1 : ScanState)
    (h : processOcc set path buf st o = OccStep.ok st1)
    (hb : bannerOnce st.seen st.out) : bannerOnce st1.seen st1.out := by
  unfold processOcc at h
  by_cases hm : occText buf o ∈ set
  · rw [if_pos hm] at h
    cases hext : extractLineContext buf o.start_byte o.end_byte with
    | none => rw [hext] at h; simp at h
    | some ex =>
      rw [hext] at h
      cases h
      have hemit := bannerOnce_emit st
        (Event.diag path (o.row + 1) o.col ex.pre (occText buf o) ex.post) rfl hb
      simpa [bannerState_seen] using hemit
  · rw [if_neg hm] at h
    cases h
    exact hb

theorem processOccs_bannerOnce (set : Finset (List Byte)) (path : String)
    (buf : List Byte) (os : List Occurrence) :
    ∀ (st st1 : ScanState), processOccs set path buf st os = OccStep.ok st1 →
      bannerOnce st.seen st.out → bannerOnce st1.seen st1.out := by
  induction os with
  | nil =>
    intro st st1 h hb
    cases h
    exact hb
  | cons o os ih =>
    intro st st1 h hb
    simp only [processOccs] at h
    cases hp : processOcc set path buf st o with
    | ok stm =>
      rw [hp] at h
      exact ih stm st1 h (processOcc_bannerOnce set path buf st o stm hp hb)
    | aborted stm =>
      rw [hp] at h
      simp at h

theorem runFiles_bannerOnce (set : Finset (List Byte)) (fs : List FileInput) :
    ∀ (st st1 : ScanState), runFiles set st fs = StepResult.ok st1 →
      bannerOnce st.seen st.out → bannerOnce st1.seen st1.out := by
  induction fs with
  | nil =>
    intro st st1 h hb
    cases h
    exact hb
  | cons f fs ih =>
    intro st st1 h hb
    simp only [runFiles] at h
    cases f with
    | ioError p => simp [processFile] at h
    | parseFail p buf =>
      simp only [processFile] at h
      exact ih st st1 h hb
    | parsed path buf occs =>
      simp only [processFile] at h
      cases hp : processOccs set path buf st occs with
      | ok stm =>
        rw [hp] at h
        exact ih stm st1 h (processOccs_bannerOnce set path buf occs st stm hp hb)
      | aborted stm =>
        rw [hp] at h
        simp at h

theorem unwrapLines_map_some (l : List String) :
    unwrapLines (l.map some) = some l := by
  induction l with
  | nil => rfl
  | cons a as ih => simp [unwrapLines, ih]

/-! ### The claims -/

/-- C1: for every banned-word set and every list of files, whenever the scan
returns a verdict, that verdict is true if and only if at least one identifier
occurrence of a parsed file has text byte-for-byte equal to a member of the
set; in particular, for the empty set the verdict is false whatever the file
contents, and no partial or case-insensitive match is reported. -/
theorem verdict_true_iff_exact_match (set : Finset (List Byte))
    (files : List FileInput) (v : Bool) (out : List Event)
    (h : check_paths_for_banned_words set files = ScanResult.ok v out) :
    v = true ↔
      ∃ f ∈ files, ∃ path buf occs, f = FileInput.parsed path buf occs ∧
        ∃ o ∈ occs, occText buf o ∈ set := by
  unfold check_paths_for_banned_words at h
  cases hr : runFiles set ⟨false, []⟩ files with
  | ok st =>
    rw [hr] at h
    injection h with hv hout
    have hs := runFiles_ok_seen set files ⟨false, []⟩ st hr
    rw [← hv, hs]
    simp only [Bool.false_or, List.any_eq_true]
    constructor
    · rintro ⟨f, hf, hmatch⟩
      exact ⟨f, hf, (fileHasMatch_iff set f).1 hmatch⟩
    · rintro ⟨f, hf, hmatch⟩
      exact ⟨f, hf, (fileHasMatch_iff set f).2 hmatch⟩
  | ioErr st => rw [hr] at h; simp at h
  | aborted st => rw [hr] at h; simp at h

theorem verdict_true_iff_exact_match_witness :
    (true = true ↔
      ∃ f ∈ [FileInput.parsed "f" [98, 97, 100, 10] [⟨0, 3, 0, 0⟩]],
        ∃ path buf occs, f = FileInput.parsed path buf occs ∧
          ∃ o ∈ occs, occText buf o ∈ ({[98, 97, 100]} : Finset (List Byte))) :=
  verdict_true_iff_exact_match {[98, 97, 100]}
    [FileInput.parsed "f" [98, 97, 100, 10] [⟨0, 3, 0, 0⟩]] true
    [Event.header, Event.diag "f" 1 0 [] [98, 97, 100] []] (by decide)

/-- C2: the claim fails on the code. On the buffer "bad" (bytes 98, 97, 100,
no line terminator anywhere) with the valid non-empty span [0, 3), the forward
scan fallback is the length of the whole buffer added to `end_byte`, so the
computed line end is 6, which exceeds the buffer length 3; the suffix slice
[3, 6) is out of bounds and the extraction aborts the process instead of
clamping to the buffer edge. -/
theorem line_end_fallback_out_of_bounds :
    line_last_char [98, 97, 100] 3 = 6 ∧
    ([98, 97, 100] : List Byte).length = 3 ∧
    extractLineContext [98, 97, 100] 0 3 = none := by decide

/-- C3: the claim fails on the code. On the buffer "foo" (bytes 102, 111, 111)
with the valid span [0, 3), the physical line containing the span is the whole
buffer, yet the extraction aborts on an out-of-bounds suffix slice and
produces no prefix, matched text or suffix at all, so nothing reconstructs the
line. -/
theorem reconstruction_impossible_without_terminator :
    physicalLine [102, 111, 111] 0 3 = [102, 111, 111] ∧
    extractLineContext [102, 111, 111] 0 3 = none := by decide

/-- C4: the first half of the claim holds and the second fails on the code. A
span starting at offset 0 whose line ends with a terminator yields an empty
prefix (buffer "bad" followed by a linefeed, span [0, 3)); but a span ending
exactly at the buffer length (buffer "x", linefeed, "bad", span [2, 5))
aborts the process on an out-of-bounds suffix slice instead of yielding an
empty suffix. -/
theorem empty_prefix_but_abort_at_buffer_end :
    extractLineContext [98, 97, 100, 10] 0 3 =
      some ⟨[], [98, 97, 100], []⟩ ∧
    extractLineContext [120, 10, 98, 97, 100] 2 5 = none := by decide

/-- C5: a file whose bytes the parser cannot build a tree for is skipped
entirely: wherever it stands in the file list, the whole observable outcome of
the scan (verdict, every emitted event, and the error behaviour) is the same
as if the file were absent, whatever its buffer holds. -/
theorem parse_failure_file_skipped (set : Finset (List Byte))
    (fs1 fs2 : List FileInput) (p : String) (buf : List Byte) :
    check_paths_for_banned_words set
        (fs1 ++ FileInput.parseFail p buf :: fs2) =
      check_paths_for_banned_words set (fs1 ++ fs2) := by
  unfold check_paths_for_banned_words
  rw [runFiles_skip_parseFail]

/-- C6: the loaded banned-word set holds exactly the nonempty trims of the
lines of the word-list text: a string is a member exactly when it is nonempty
and some line trims to it; blank and white-space-only lines trim to the empty
string and so never contribute a member, and duplicates collapse since the
result is a set. -/
theorem banned_words_from_members (text : String) (w : String) :
    w ∈ banned_words_from text ↔
      w ≠ "" ∧ ∃ l ∈ rustLines text, rustTrim l = w := by
  unfold banned_words_from
  rw [List.mem_toFinset, List.mem_filter, List.mem_map]
  simp only [bne_iff_ne, ne_eq]
  constructor
  · rintro ⟨⟨l, hl, rfl⟩, hne⟩
    exact ⟨hne, l, hl, rfl⟩
  · rintro ⟨hne, l, hl, rfl⟩
    exact ⟨⟨l, hl, rfl⟩, hne⟩

/-- C7: an I/O error opening or mapping a source file aborts the run at that
point: whatever files follow, they are not processed, the outcome is the
propagated error carrying only the events emitted before it, and `main` maps
it to a runtime abort, which writes a message to the error stream and exits
with a failure status — unlike a parse failure, which is skipped. -/
theorem io_error_aborts_run (set : Finset (List Byte))
    (fs1 fs2 : List FileInput) (p : String) (st1 : ScanState)
    (h : runFiles set ⟨false, []⟩ fs1 = StepResult.ok st1) :
    check_paths_for_banned_words set (fs1 ++ FileInput.ioError p :: fs2) =
        ScanResult.ioError st1.out ∧
      mainExit (ScanResult.ioError st1.out) = ProcessExit.abortWithMessage ∧
      exitIsFailure ProcessExit.abortWithMessage = true := by
  refine ⟨?_, rfl, rfl⟩
  unfold check_paths_for_banned_words
  rw [runFiles_ioError_stops set p fs2 fs1 ⟨false, []⟩ st1 h]

theorem io_error_aborts_run_witness :
    check_paths_for_banned_words ∅ [FileInput.ioError "g"] =
        ScanResult.ioError [] ∧
      mainExit (ScanResult.ioError []) = ProcessExit.abortWithMessage ∧
      exitIsFailure ProcessExit.abortWithMessage = true :=
  io_error_aborts_run ∅ [] [] "g" ⟨false, []⟩ rfl

/-- C8: over a run that completes, the banner is emitted exactly once when any
match occurred — and then it is the first event emitted, at the first match —
and never when no match occurred anywhere. -/
theorem banner_emitted_once (set : Finset (List Byte))
    (files : List FileInput) (v : Bool) (out : List Event)
    (h : check_paths_for_banned_words set files = ScanResult.ok v out) :
    (v = false → out = []) ∧
    (v = true → out.countP isHeaderEvent = 1 ∧
      out.head? = some Event.header) := by
  unfold check_paths_for_banned_words at h
  cases hr : runFiles set ⟨false, []⟩ files with
  | ok st =>
    rw [hr] at h
    injection h with hv hout
    have hb := runFiles_bannerOnce set files ⟨false, []⟩ st hr
      ⟨fun _ => rfl, fun hc => absurd hc (by decide)⟩
    rw [← hv, ← hout]
    exact hb
  | ioErr st => rw [hr] at h; simp at h
  | aborted st => rw [hr] at h; simp at h

theorem banner_emitted_once_witness :
    ((true = false →
        ([Event.header, Event.diag "g" 1 0 [] [97] []] : List Event) = []) ∧
      (true = true →
        ([Event.header, Event.diag "g" 1 0 [] [97] []] : List Event).countP
            isHeaderEvent = 1 ∧
          ([Event.header, Event.diag "g" 1 0 [] [97] []] : List Event).head? =
            some Event.header)) :=
  banner_emitted_once {[97]} [FileInput.parsed "g" [97, 10] [⟨0, 1, 0, 0⟩]]
    true [Event.header, Event.diag "g" 1 0 [] [97] []] (by decide)

/-- C9: when some line of the banned-word-list resource fails to read or
decode, loading aborts the process (no set is produced, the line is not
skipped, and no recoverable error is returned); when every line reads and
decodes successfully, a set is produced, so the abort branch is unreachable
for well-formed word lists. -/
theorem invalid_line_aborts_loading (ls : List (Option String)) :
    (none ∈ ls → banned_words_from_lines ls = none) ∧
    ((∀ x ∈ ls, x.isSome) → (banned_words_from_lines ls).isSome) := by
  constructor
  · intro h
    have hu : unwrapLines ls = none := by
      induction ls with
      | nil => simp at h
      | cons a as ih =>
        cases a with
        | none => rfl
        | some s =>
          have hmem : none ∈ as := by simpa using h
          simp [unwrapLines, ih hmem]
    simp [banned_words_from_lines, hu]
  · intro h
    have hu : (unwrapLines ls).isSome := by
      induction ls with
      | nil => simp [unwrapLines]
      | cons a as ih =>
        cases a with
        | none =>
          have := h none (by simp)
          simp at this
        | some s =>
          have h2 := ih (fun x hx => h x (List.mem_cons_of_mem _ hx))
          cases hcase : unwrapLines as with
          | none => rw [hcase] at h2; simp at h2
          | some l => simp [unwrapLines, hcase]
    cases hcase : unwrapLines ls with
    | none => rw [hcase] at hu; simp at hu
    | some l => simp [banned_words_from_lines, hcase]

theorem invalid_line_aborts_loading_witness :
    ((none ∈ [some "a", none] →
        banned_words_from_lines [some "a", none] = none) ∧
      ((∀ x ∈ [some "a", none], x.isSome) →
        (banned_words_from_lines [some "a", none]).isSome)) :=
  invalid_line_aborts_loading [some "a", none]

/-- C10: with no file paths on the command line, the scanned paths are exactly
the entries the file system reports for the directory named "src" (its
immediate entries, not a recursive walk), and when that directory cannot be
read the selection aborts the process instead of reporting a recoverable
error. -/
theorem default_paths_from_src
    (readDir : String → Option (List (Option String)))
    (entries : List String) :
    (readDir "src" = some (entries.map some) →
      test_paths [] readDir = some entries) ∧
    (readDir "src" = none → test_paths [] readDir = none) := by
  constructor
  · intro h
    simp [test_paths, h, unwrapLines_map_some]
  · intro h
    simp [test_paths, h]

end Taboo
